import Mathlib

/-!
Shallow embedding of the dynamic replica-factor calculator
(`replica_clean.py` + `calculator.py`).

Modelling conventions:
* timestamps are integers in minutes (pandas timestamps are int64 ticks;
  the interval duration `pd.Timedelta(minutes=60)` becomes the integer `60`);
* Python floats are modelled exactly by `ℚ` (all constants of the source,
  0.75 / 0.5 / 0.25, are dyadic and exact; the claims are settled at inputs
  where float and rational arithmetic agree);
* the Python built-in `round` is round-half-to-even, embedded as
  `roundHalfEven`;
* the process-global dict `self.current_rf` is an association list threaded
  through the interval loop;
* an uncaught Python exception (the empty-interval crash in
  `Calculator.calculate_threshold`) is modelled by `Except`, and the
  orchestrator loop stops at the first error, keeping the results already
  emitted, exactly as the source writes one CSV per finished interval.
-/

namespace Replica

/-- One row of the access-log CSV: columns `filename`, `node_id`,
`timestamp`, `current_replication_factor`. -/
structure AccessEvent where
  filename : String
  node_id : ℤ
  timestamp : ℤ
  current_replication_factor : ℤ
deriving DecidableEq

/-- The process-wide replication state `self.current_rf` (a Python dict
from filename to replication factor), as an association list. -/
abbrev RState := List (String × ℤ)

/-- Dict read: `self.current_rf[filename]` if present. -/
def rfLookup (st : RState) (f : String) : Option ℤ :=
  (st.find? (fun p => p.1 = f)).map (·.2)

/-- Dict write `self.current_rf[filename] = v` (overwrite or append). -/
def rfInsert : RState → String → ℤ → RState
  | [], f, v => [(f, v)]
  | p :: rest, f, v => if p.1 = f then (f, v) :: rest else p :: rfInsert rest f v

/-- `Calculator.calculate_weight`: tiered step function on
`dnc_i >= DN_count * 0.75 / 0.5 / 0.25`. -/
def calculate_weight (dnc_i DN_count : ℤ) : ℤ :=
  if (dnc_i : ℚ) ≥ (DN_count : ℚ) * (3 / 4) then 4
  else if (dnc_i : ℚ) ≥ (DN_count : ℚ) * (1 / 2) then 3
  else if (dnc_i : ℚ) ≥ (DN_count : ℚ) * (1 / 4) then 2
  else 1

/-- The denominator used by `Calculator.calculate_popularity_degree`:
the source replaces `crf_i` by `1` only when it is exactly `0`
(`if crf_i == 0: crf_i = 1`). -/
def pdDenom (crf_i : ℤ) : ℤ := if crf_i = 0 then 1 else crf_i

/-- `Calculator.calculate_popularity_degree`:
`(ac_i * dnc_i * w_i) / crf_i` with the zero guard of `pdDenom`. -/
def calculate_popularity_degree (ac_i dnc_i w_i crf_i : ℤ) : ℚ :=
  ((ac_i * dnc_i * w_i : ℤ) : ℚ) / ((pdDenom crf_i : ℤ) : ℚ)

/-- Round half to even, the behaviour of the Python built-in `round`
used in `calculate_new_rf_for_hot_warm`. -/
def roundHalfEven (q : ℚ) : ℤ :=
  let f := ⌊q⌋
  let frac := q - (f : ℚ)
  if frac < 1 / 2 then f
  else if frac > 1 / 2 then f + 1
  else if f % 2 = 0 then f else f + 1

/-- `nrf_i = max(1, int(round((crf_i * dnc_i) / DN_count)))` from
`ReplicaAlgorithm.calculate_new_rf_for_hot_warm`. Faithful for
`DN_count ≠ 0` only: ℚ division is total (`x / 0 = 0`) while at
`DN_count = 0` the source's division yields a non-finite float and its
`round` raises, killing the run; no theorem in this file quantifies over
`DN_count = 0`. -/
def calcNewRf (DN_count crf_i dnc_i : ℤ) : ℤ :=
  max 1 (roundHalfEven (((crf_i * dnc_i : ℤ) : ℚ) / (DN_count : ℚ)))

/-- One per-file metrics row produced by `process_files`. -/
structure FileMetrics where
  filename : String
  ac_i : ℤ
  dnc_i : ℤ
  crf_i : ℤ
  w_i : ℤ
  PD_i : ℚ
deriving DecidableEq

/-- The single runtime error the model can raise: the source calls
`calculate_threshold` on an empty metrics table, which raises an uncaught
pandas `KeyError` (there is no `PD_i` column in an empty frame). -/
inductive RunError
  | emptyInterval
deriving DecidableEq

/-- `Calculator.calculate_threshold`: `T = (sum(PD_i)/n) / DN_count`.
On an empty metrics table the real code raises (uncaught); we model the
raise as `Except.error`. Faithful for `DN_count ≠ 0` only: ℚ division is
total (`x / 0 = 0`) while the source's numpy division by `DN_count = 0`
yields `T = inf`; no theorem in this file quantifies over
`DN_count = 0`. -/
def calculate_threshold (metrics : List FileMetrics) (DN_count : ℤ) :
    Except RunError ℚ :=
  if metrics.isEmpty then .error .emptyInterval
  else .ok (((metrics.map (·.PD_i)).sum / (metrics.length : ℚ)) / (DN_count : ℚ))

/-- `pd.Timedelta(minutes=60)` in minute units. -/
def intervalDuration : ℤ := 60

/-- The `while current < max_time` loop of
`ReplicaAlgorithm.set_time_interval`, with an explicit fuel argument so the
recursion is structural (any fuel of at least `(maxTime - current).toNat`
steps gives the loop's result, since each iteration advances `current` by
60 ≥ 1). -/
def buildIntervalsFuel : ℕ → ℤ → ℤ → List (ℤ × ℤ)
  | 0, _, _ => []
  | fuel + 1, current, maxTime =>
    if current < maxTime then
      (current, current + intervalDuration) ::
        buildIntervalsFuel fuel (current + intervalDuration) maxTime
    else []

/-- The `while current < max_time` loop of
`ReplicaAlgorithm.set_time_interval`: produce `(current, current + 60)`
and advance until `current ≥ max_time`. -/
def buildIntervals (current maxTime : ℤ) : List (ℤ × ℤ) :=
  buildIntervalsFuel (maxTime - current).toNat current maxTime

/-- `self.df['timestamp'].min()` (0 as junk value on the empty log, where
pandas yields NaT and the interval loop body never runs; `buildIntervals 0 0`
likewise yields no interval). -/
def minTimestamp : List AccessEvent → ℤ
  | [] => 0
  | e :: es => (es.map (·.timestamp)).foldl min e.timestamp

/-- `self.df['timestamp'].max()` (0 as junk value on the empty log). -/
def maxTimestamp : List AccessEvent → ℤ
  | [] => 0
  | e :: es => (es.map (·.timestamp)).foldl max e.timestamp

/-- `ReplicaAlgorithm.set_time_interval`. -/
def set_time_interval (df : List AccessEvent) : List (ℤ × ℤ) :=
  buildIntervals (minTimestamp df) (maxTimestamp df)

/-- `ReplicaAlgorithm.read_logfile`: the mask
`(timestamp >= start_time) & (timestamp < end_time)`. -/
def read_logfile (df : List AccessEvent) (start_time end_time : ℤ) :
    List AccessEvent :=
  df.filter (fun e => start_time ≤ e.timestamp ∧ e.timestamp < end_time)

/-- First-occurrence deduplication (the order semantics of pandas
`Series.unique()`), keeping a list of names already seen. -/
def dedupFirstAux (seen : List String) : List String → List String
  | [] => []
  | f :: fs =>
    if f ∈ seen then dedupFirstAux seen fs
    else f :: dedupFirstAux (f :: seen) fs

/-- `interval_logs['filename'].unique()`. -/
def uniqueFilenames (logs : List AccessEvent) : List String :=
  dedupFirstAux [] (logs.map (·.filename))

/-- `file_logs['current_replication_factor'].iloc[0]`: the first in-window
row for the file (never called on an empty selection; 0 is a junk default). -/
def firstCrf (fileLogs : List AccessEvent) : ℤ :=
  (fileLogs.head?.map (·.current_replication_factor)).getD 0

/-- The body of the `for filename in interval_logs['filename'].unique()`
loop of `ReplicaAlgorithm.process_files`, one filename at a time, threading
`self.current_rf`. -/
def process_files_aux (DN_count : ℤ) (logs : List AccessEvent) :
    List String → RState → List FileMetrics × RState
  | [], st => ([], st)
  | f :: fs, st =>
    let fileLogs := logs.filter (fun e => e.filename = f)
    let ac_i : ℤ := fileLogs.length
    let dnc_i : ℤ := (fileLogs.map (·.node_id)).dedup.length
    let seeded :=
      match rfLookup st f with
      | some v => (v, st)
      | none => (firstCrf fileLogs, rfInsert st f (firstCrf fileLogs))
    let crf_i := seeded.1
    let w_i := calculate_weight dnc_i DN_count
    let PD_i := calculate_popularity_degree ac_i dnc_i w_i crf_i
    let rest := process_files_aux DN_count logs fs seeded.2
    (⟨f, ac_i, dnc_i, crf_i, w_i, PD_i⟩ :: rest.1, rest.2)

/-- `ReplicaAlgorithm.process_files`. -/
def process_files (DN_count : ℤ) (logs : List AccessEvent) (st : RState) :
    List FileMetrics × RState :=
  process_files_aux DN_count logs (uniqueFilenames logs) st

/-- The three tiers. -/
inductive Classification
  | HOT
  | WARM
  | COLD
deriving DecidableEq

/-- A metrics row plus its classification. -/
structure ClassifiedFile extends FileMetrics where
  classification : Classification
deriving DecidableEq

/-- The `if/elif` chain classifying one row in
`ReplicaAlgorithm.classify_files`. -/
def classify_one (T : ℚ) (m : FileMetrics) : Classification :=
  if m.PD_i ≥ T ∧ (m.w_i = 3 ∨ m.w_i = 4) then .HOT
  else if m.PD_i ≥ T ∧ (m.w_i = 1 ∨ m.w_i = 2) then .WARM
  else if m.PD_i < T ∧ (m.w_i = 3 ∨ m.w_i = 4) then .WARM
  else .COLD

/-- `ReplicaAlgorithm.classify_files`: build HD, WD, CD in input order. -/
def classify_files (metrics : List FileMetrics) (T : ℚ) :
    List ClassifiedFile × List ClassifiedFile × List ClassifiedFile :=
  match metrics with
  | [] => ([], [], [])
  | m :: rest =>
    let r := classify_files rest T
    match classify_one T m with
    | .HOT => (⟨m, .HOT⟩ :: r.1, r.2.1, r.2.2)
    | .WARM => (r.1, ⟨m, .WARM⟩ :: r.2.1, r.2.2)
    | .COLD => (r.1, r.2.1, ⟨m, .COLD⟩ :: r.2.2)

/-- A classified row after its `nrf_i` has been stored by the updater. -/
structure UpdatedFile extends ClassifiedFile where
  nrf_i : ℤ
deriving DecidableEq

/-- `ReplicaAlgorithm.calculate_new_rf_for_hot_warm`: for each row of
`HD + WD`, compute `nrf_i`, store it into `self.current_rf`, and record it
on the row. -/
def calculate_new_rf_for_hot_warm (DN_count : ℤ) :
    List ClassifiedFile → RState → List UpdatedFile × RState
  | [], st => ([], st)
  | c :: rest, st =>
    let nrf := calcNewRf DN_count c.crf_i c.dnc_i
    let r := calculate_new_rf_for_hot_warm DN_count rest (rfInsert st c.filename nrf)
    (⟨c, nrf⟩ :: r.1, r.2)

/-- `ReplicaAlgorithm.process_cold_data`: `nrf_i = 1` for every cold row,
stored into `self.current_rf`. -/
def process_cold_data :
    List ClassifiedFile → RState → List UpdatedFile × RState
  | [], st => ([], st)
  | c :: rest, st =>
    let r := process_cold_data rest (rfInsert st c.filename 1)
    (⟨c, 1⟩ :: r.1, r.2)

/-- One row of an `interval_<k>_results.csv` file. -/
structure ResultRow extends UpdatedFile where
  erasure_coding : Bool
  threshold : ℚ
  interval_start : ℤ
  interval_end : ℤ
deriving DecidableEq

/-- `classification_order = {'HOT': 0, 'WARM': 1, 'COLD': 2}`. -/
def classOrd : Classification → ℕ
  | .HOT => 0
  | .WARM => 1
  | .COLD => 2

/-- The sort key of `save_interval_results`:
`sort_values(['sort_key', 'filename'])`. -/
def rowLe (a b : ResultRow) : Prop :=
  classOrd a.classification < classOrd b.classification ∨
    (classOrd a.classification = classOrd b.classification ∧
      a.filename ≤ b.filename)

instance : DecidableRel rowLe := fun a b => by
  unfold rowLe
  infer_instance

/-- `ReplicaAlgorithm.save_interval_results`: annotate every row of
`HD + WD + CD` with `erasure_coding = (nrf_i == 1)`, the threshold and the
interval bounds, then sort HOT → WARM → COLD and by filename. -/
def save_interval_results (start_time end_time : ℤ) (T : ℚ)
    (hotWarm cold : List UpdatedFile) : List ResultRow :=
  let allFiles := hotWarm ++ cold
  let rows := allFiles.map (fun u =>
    ({ toUpdatedFile := u
       erasure_coding := decide (u.nrf_i = 1)
       threshold := T
       interval_start := start_time
       interval_end := end_time } : ResultRow))
  List.insertionSort rowLe rows

/-- One iteration of the interval loop in `ReplicaAlgorithm.run`:
steps i–vi plus `save_interval_results`, threading `self.current_rf`. -/
def processInterval (DN_count : ℤ) (df : List AccessEvent) (st : RState)
    (iv : ℤ × ℤ) : Except RunError (List ResultRow × RState) :=
  let interval_logs := read_logfile df iv.1 iv.2
  let pf := process_files DN_count interval_logs st
  match calculate_threshold pf.1 DN_count with
  | .error e => .error e
  | .ok T =>
    let c := classify_files pf.1 T
    let hw := calculate_new_rf_for_hot_warm DN_count (c.1 ++ c.2.1) pf.2
    let cd := process_cold_data c.2.2 hw.2
    .ok (save_interval_results iv.1 iv.2 T hw.1 cd.1, cd.2)

/-- The interval loop of `ReplicaAlgorithm.run`: process the intervals in
order; an uncaught error stops the run, keeping the results of the
intervals already finished. -/
def runIntervals (DN_count : ℤ) (df : List AccessEvent) :
    List (ℤ × ℤ) → RState → List (List ResultRow) × Option RunError
  | [], _ => ([], none)
  | iv :: rest, st =>
    match processInterval DN_count df st iv with
    | .error e => ([], some e)
    | .ok r =>
      let more := runIntervals DN_count df rest r.2
      (r.1 :: more.1, more.2)

/-- `ReplicaAlgorithm.run` on an in-memory log: `self.current_rf` starts
empty. -/
def runAlgorithm (df : List AccessEvent) (DN_count : ℤ) :
    List (List ResultRow) × Option RunError :=
  runIntervals DN_count df (set_time_interval df) []

/-! Concrete logs used to instantiate the theorems. -/

/-- A log whose timestamps have `min_time = max_time`. -/
def logSingle : List AccessEvent := [⟨"f", 1, 0, 3⟩]

/-- Two accesses 90 minutes apart: two windows. -/
def logTwoWindows : List AccessEvent := [⟨"f", 1, 0, 3⟩, ⟨"f", 1, 90, 3⟩]

/-- The last access sits exactly 60 minutes after the first: the log span
is an exact multiple of the interval duration. -/
def logExactBoundary : List AccessEvent := [⟨"f", 1, 0, 3⟩, ⟨"f", 1, 60, 3⟩]

/-- Accesses at minutes 0 and 150: the middle window `[60, 120)` of the
three derived windows contains no event. -/
def logEmptyMiddle : List AccessEvent := [⟨"f", 1, 0, 3⟩, ⟨"f", 1, 150, 3⟩]

/-- Five accesses from five distinct nodes, `crf = 5`: with `DN_count = 10`
the hot/warm update computes `round(5 * 5 / 10) = round(2.5)`, an exact
rounding tie. -/
def logTie : List AccessEvent :=
  [⟨"a", 1, 0, 5⟩, ⟨"a", 2, 1, 5⟩, ⟨"a", 3, 2, 5⟩, ⟨"a", 4, 3, 5⟩,
   ⟨"a", 5, 4, 5⟩]

/-- The same file in two consecutive windows. -/
def logTwoIntervals : List AccessEvent := [⟨"f", 1, 0, 3⟩, ⟨"f", 1, 70, 3⟩]

/-- Two accesses inside one window. -/
def logPair : List AccessEvent := [⟨"f", 1, 0, 3⟩, ⟨"f", 1, 30, 3⟩]

end Replica

namespace Replica

/-! ### The replication-state dictionary -/

theorem rfLookup_nil (f : String) : rfLookup [] f = none := rfl

theorem rfLookup_cons (p : String × ℤ) (rest : RState) (f : String) :
    rfLookup (p :: rest) f = if p.1 = f then some p.2 else rfLookup rest f := by
  by_cases h : p.1 = f
  · rw [if_pos h]
    unfold rfLookup
    rw [List.find?_cons_of_pos _ (by simpa using h)]
    rfl
  · rw [if_neg h]
    unfold rfLookup
    rw [List.find?_cons_of_neg _ (by simpa using h)]

theorem rfLookup_rfInsert_self (st : RState) (f : String) (v : ℤ) :
    rfLookup (rfInsert st f v) f = some v := by
  induction st with
  | nil => simp [rfInsert, rfLookup_cons]
  | cons p rest ih =>
    by_cases h : p.1 = f
    · simp [rfInsert, h, rfLookup_cons]
    · simp [rfInsert, h, rfLookup_cons, ih]

theorem rfLookup_rfInsert_ne (st : RState) {f g : String} (v : ℤ)
    (hne : f ≠ g) : rfLookup (rfInsert st g v) f = rfLookup st f := by
  have hgf : ¬ (g = f) := fun h => hne h.symm
  induction st with
  | nil => simp [rfInsert, rfLookup_cons, hgf, rfLookup_nil]
  | cons p rest ih =>
    by_cases h : p.1 = g
    · have hpf : ¬ p.1 = f := by rw [h]; exact hgf
      simp [rfInsert, h, rfLookup_cons, hgf, hpf]
    · simp [rfInsert, h, rfLookup_cons, ih]

/-! ### The window loop -/

theorem buildIntervalsFuel_congr :
    ∀ (n m : ℕ) (current maxTime : ℤ),
      (maxTime - current).toNat ≤ n → (maxTime - current).toNat ≤ m →
      buildIntervalsFuel n current maxTime =
        buildIntervalsFuel m current maxTime := by
  intro n
  induction n with
  | zero =>
    intro m c mt hn _
    have hc : ¬ c < mt := by omega
    cases m with
    | zero => rfl
    | succ m => simp [buildIntervalsFuel, hc]
  | succ n ih =>
    intro m c mt hn hm
    by_cases hc : c < mt
    · cases m with
      | zero => omega
      | succ m =>
        simp only [buildIntervalsFuel, if_pos hc, intervalDuration]
        congr 1
        exact ih m (c + 60) mt (by omega) (by omega)
    · cases m with
      | zero => simp [buildIntervalsFuel, hc]
      | succ m => simp [buildIntervalsFuel, hc]

theorem buildIntervals_eq_cons {current maxTime : ℤ} (h : current < maxTime) :
    buildIntervals current maxTime =
      (current, current + 60) :: buildIntervals (current + 60) maxTime := by
  unfold buildIntervals
  have h1 : (maxTime - current).toNat = ((maxTime - current).toNat - 1) + 1 := by
    omega
  rw [h1]
  simp only [buildIntervalsFuel, if_pos h, intervalDuration]
  congr 1
  exact buildIntervalsFuel_congr _ _ _ _ (by omega) (by omega)

theorem buildIntervals_eq_nil {current maxTime : ℤ}
    (h : ¬ current < maxTime) : buildIntervals current maxTime = [] := by
  unfold buildIntervals
  have h1 : (maxTime - current).toNat = 0 := by omega
  rw [h1]
  rfl

theorem buildIntervals_getD (maxTime : ℤ) :
    ∀ (i : ℕ) (current : ℤ), i < (buildIntervals current maxTime).length →
      (buildIntervals current maxTime).getD i (0, 0) =
        (current + 60 * i, current + 60 * (i + 1)) := by
  intro i
  induction i with
  | zero =>
    intro c h
    by_cases hc : c < maxTime
    · rw [buildIntervals_eq_cons hc]
      simp [Prod.ext_iff]
    · rw [buildIntervals_eq_nil hc] at h
      simp at h
  | succ i ih =>
    intro c h
    by_cases hc : c < maxTime
    · rw [buildIntervals_eq_cons hc] at h ⊢
      simp only [List.length_cons, Nat.succ_lt_succ_iff] at h
      simp only [List.getD_cons_succ]
      rw [ih (c + 60) h]
      simp only [Prod.ext_iff]
      constructor <;> · push_cast; ring
    · rw [buildIntervals_eq_nil hc] at h
      simp at h

theorem buildIntervals_index_lt (maxTime : ℤ) :
    ∀ (i : ℕ) (current : ℤ), i < (buildIntervals current maxTime).length →
      current + 60 * i < maxTime := by
  intro i
  induction i with
  | zero =>
    intro c h
    by_cases hc : c < maxTime
    · push_cast
      omega
    · rw [buildIntervals_eq_nil hc] at h
      simp at h
  | succ i ih =>
    intro c h
    by_cases hc : c < maxTime
    · rw [buildIntervals_eq_cons hc] at h
      simp only [List.length_cons, Nat.succ_lt_succ_iff] at h
      have := ih (c + 60) h
      push_cast at this ⊢
      omega
    · rw [buildIntervals_eq_nil hc] at h
      simp at h

theorem lt_length_of_index_lt (maxTime : ℤ) :
    ∀ (i : ℕ) (current : ℤ), current + 60 * i < maxTime →
      i < (buildIntervals current maxTime).length := by
  intro i
  induction i with
  | zero =>
    intro c h
    push_cast at h
    have hc : c < maxTime := by omega
    rw [buildIntervals_eq_cons hc]
    simp
  | succ i ih =>
    intro c h
    have hc : c < maxTime := by push_cast at h; omega
    rw [buildIntervals_eq_cons hc]
    simp only [List.length_cons, Nat.succ_lt_succ_iff]
    apply ih
    push_cast at h ⊢
    omega

theorem maxTime_le_end_aux (maxTime : ℤ) :
    ∀ (n : ℕ) (current : ℤ), (maxTime - current).toNat ≤ n →
      maxTime ≤ current + 60 * (buildIntervals current maxTime).length := by
  intro n
  induction n with
  | zero =>
    intro c h
    have hc : ¬ c < maxTime := by omega
    rw [buildIntervals_eq_nil hc]
    simp
    omega
  | succ n ih =>
    intro c h
    by_cases hc : c < maxTime
    · rw [buildIntervals_eq_cons hc]
      simp only [List.length_cons]
      have := ih (c + 60) (by omega)
      push_cast at this ⊢
      omega
    · rw [buildIntervals_eq_nil hc]
      simp
      omega

theorem maxTime_le_end (current maxTime : ℤ) :
    maxTime ≤ current + 60 * (buildIntervals current maxTime).length :=
  maxTime_le_end_aux maxTime (maxTime - current).toNat current le_rfl

end Replica

namespace Replica

/-- C2 (corrected): the partitioner emits the contiguous 60-minute windows
`[min + 60 i, min + 60 (i+1))`, at least one of them when
`min_time < max_time`; but when `min_time = max_time` the
`while current < max_time` loop body never runs, so it emits zero
intervals, not one. -/
theorem C2_window_partitioner (df : List AccessEvent) :
    (∀ i : ℕ, i < (set_time_interval df).length →
      (set_time_interval df).getD i (0, 0) =
        (minTimestamp df + 60 * i, minTimestamp df + 60 * (i + 1))) ∧
    (minTimestamp df < maxTimestamp df → 1 ≤ (set_time_interval df).length) ∧
    (minTimestamp df = maxTimestamp df → set_time_interval df = []) := by
  unfold set_time_interval
  refine ⟨fun i hi => buildIntervals_getD _ i _ hi, fun h => ?_, fun h => ?_⟩
  · rw [buildIntervals_eq_cons h]
    simp
  · rw [buildIntervals_eq_nil (by omega)]

/-- Witness for C2 at a concrete log spanning two windows. -/
theorem C2_window_partitioner_witness :
    (set_time_interval logTwoWindows).getD 1 (0, 0) =
      (minTimestamp logTwoWindows + 60 * 1,
        minTimestamp logTwoWindows + 60 * (1 + 1)) ∧
    1 ≤ (set_time_interval logTwoWindows).length :=
  ⟨(C2_window_partitioner logTwoWindows).1 1 (by with_unfolding_all decide),
   (C2_window_partitioner logTwoWindows).2.1 (by with_unfolding_all decide)⟩

/-- Counterexample to C2 as stated: on a log whose timestamps are all
equal, the partitioner returns zero intervals, not exactly one. -/
theorem C2_counterexample :
    minTimestamp logSingle = maxTimestamp logSingle ∧
    ¬ (set_time_interval logSingle).length = 1 := by
  with_unfolding_all decide

/-! ### Bounds of the log's timestamp column -/

theorem foldl_min_le_init : ∀ (l : List ℤ) (a : ℤ), l.foldl min a ≤ a := by
  intro l
  induction l with
  | nil => intro a; simp
  | cons x xs ih =>
    intro a
    simp only [List.foldl_cons]
    exact le_trans (ih (min a x)) (min_le_left a x)

theorem foldl_min_le_mem :
    ∀ (l : List ℤ) (a x : ℤ), x ∈ l → l.foldl min a ≤ x := by
  intro l
  induction l with
  | nil => intro a x hx; simp at hx
  | cons y ys ih =>
    intro a x hx
    rcases List.mem_cons.1 hx with h | h
    · subst h
      exact le_trans (foldl_min_le_init ys (min a x)) (min_le_right a x)
    · exact ih (min a y) x h

theorem le_foldl_max_init : ∀ (l : List ℤ) (a : ℤ), a ≤ l.foldl max a := by
  intro l
  induction l with
  | nil => intro a; simp
  | cons x xs ih =>
    intro a
    simp only [List.foldl_cons]
    exact le_trans (le_max_left a x) (ih (max a x))

theorem le_foldl_max_mem :
    ∀ (l : List ℤ) (a x : ℤ), x ∈ l → x ≤ l.foldl max a := by
  intro l
  induction l with
  | nil => intro a x hx; simp at hx
  | cons y ys ih =>
    intro a x hx
    rcases List.mem_cons.1 hx with h | h
    · subst h
      exact le_trans (le_max_right a x) (le_foldl_max_init ys (max a x))
    · exact ih (max a y) x h

theorem minTimestamp_le {df : List AccessEvent} {e : AccessEvent}
    (he : e ∈ df) : minTimestamp df ≤ e.timestamp := by
  cases df with
  | nil => simp at he
  | cons a es =>
    unfold minTimestamp
    rcases List.mem_cons.1 he with h | h
    · subst h
      exact foldl_min_le_init _ _
    · exact foldl_min_le_mem _ _ _ (List.mem_map_of_mem _ h)

theorem le_maxTimestamp {df : List AccessEvent} {e : AccessEvent}
    (he : e ∈ df) : e.timestamp ≤ maxTimestamp df := by
  cases df with
  | nil => simp at he
  | cons a es =>
    unfold maxTimestamp
    rcases List.mem_cons.1 he with h | h
    · subst h
      exact le_foldl_max_init _ _
    · exact le_foldl_max_mem _ _ _ (List.mem_map_of_mem _ h)

end Replica

namespace Replica

theorem buildIntervals_eq_map_range (current maxTime : ℤ) :
    buildIntervals current maxTime =
      (List.range (buildIntervals current maxTime).length).map
        (fun i : ℕ => (current + 60 * (i : ℤ), current + 60 * ((i : ℤ) + 1))) := by
  apply List.ext_getElem
  · simp
  · intro n h1 h2
    have h3 := buildIntervals_getD maxTime n current h1
    rw [List.getD_eq_getElem _ _ h1] at h3
    rw [h3]
    simp

theorem interval_hits_once (current maxTime ts : ℤ)
    (hle : current ≤ ts) (hmax : ts ≤ maxTime)
    (hcond : ts < maxTime ∨ ¬ ((60 : ℤ) ∣ (maxTime - current))) :
    (buildIntervals current maxTime).countP
      (fun iv => decide (iv.1 ≤ ts ∧ ts < iv.2)) = 1 := by
  have hq0 : (0 : ℤ) ≤ (ts - current) / 60 := Int.ediv_nonneg (by omega) (by norm_num)
  set q := ((ts - current) / 60).toNat with hqn'
  have hqdef : (q : ℤ) = (ts - current) / 60 := Int.toNat_of_nonneg hq0
  have hdiv := Int.ediv_add_emod (ts - current) 60
  have hmod1 : 0 ≤ (ts - current) % 60 := Int.emod_nonneg _ (by norm_num)
  have hmod2 : (ts - current) % 60 < 60 := Int.emod_lt_of_pos _ (by norm_num)
  have hmem1 : current + 60 * (q : ℤ) ≤ ts := by omega
  have hmem2 : ts < current + 60 * ((q : ℤ) + 1) := by omega
  have hq_lt : current + 60 * (q : ℤ) < maxTime := by
    rcases hcond with h | h
    · omega
    · by_contra hcon
      push_neg at hcon
      exact h ⟨(q : ℤ), by omega⟩
  have hqn : q < (buildIntervals current maxTime).length :=
    lt_length_of_index_lt maxTime q current hq_lt
  conv_lhs => rw [buildIntervals_eq_map_range current maxTime]
  rw [List.countP_map]
  have hcong : ∀ i ∈ List.range (buildIntervals current maxTime).length,
      ((fun iv : ℤ × ℤ => decide (iv.1 ≤ ts ∧ ts < iv.2)) ∘
        (fun i : ℕ => (current + 60 * (i : ℤ), current + 60 * ((i : ℤ) + 1)))) i
        = true ↔ (fun i : ℕ => decide (i = q)) i = true := by
    intro i _
    simp only [Function.comp_apply, decide_eq_true_eq]
    constructor
    · rintro ⟨ha, hb⟩
      omega
    · rintro rfl
      exact ⟨hmem1, hmem2⟩
  rw [List.countP_congr hcong]
  have hcnt : (List.range (buildIntervals current maxTime).length).countP
      (fun i : ℕ => decide (i = q)) =
      List.count q (List.range (buildIntervals current maxTime).length) := by
    unfold List.count
    apply List.countP_congr
    intro x _
    simp only [decide_eq_true_eq, beq_iff_eq]
  rw [hcnt]
  exact List.count_eq_one_of_mem (List.nodup_range _) (List.mem_range.2 hqn)

/-- C3 (corrected): every event whose timestamp is strictly below
`max_time` falls in exactly one produced window (under the filter
`start ≤ timestamp < end` of `read_logfile`), and so does a
maximum-timestamp event provided the log's span `max_time - min_time` is
not an exact multiple of the 60-minute duration. When the span is a
positive exact multiple of 60 (or the log has a single timestamp), the
events carrying `max_time` fall in no window at all, because the last
produced window ends exactly at `max_time` and the filter is strict there
— refuting the claim that no event is ever lost. -/
theorem C3_no_event_lost (df : List AccessEvent) (e : AccessEvent)
    (he : e ∈ df)
    (hcond : e.timestamp < maxTimestamp df ∨
      ¬ ((60 : ℤ) ∣ (maxTimestamp df - minTimestamp df))) :
    (set_time_interval df).countP
      (fun iv => decide (e ∈ read_logfile df iv.1 iv.2)) = 1 := by
  have hcong : ∀ iv ∈ set_time_interval df,
      (fun iv : ℤ × ℤ => decide (e ∈ read_logfile df iv.1 iv.2)) iv = true ↔
      (fun iv : ℤ × ℤ => decide (iv.1 ≤ e.timestamp ∧ e.timestamp < iv.2)) iv
        = true := by
    intro iv _
    simp only [decide_eq_true_eq, read_logfile, List.mem_filter, decide_eq_true_eq]
    constructor
    · exact fun h => h.2
    · exact fun h => ⟨he, h⟩
  rw [List.countP_congr hcong]
  exact interval_hits_once _ _ _ (minTimestamp_le he) (le_maxTimestamp he) hcond

/-- Witness for C3 at a concrete log: the event at minute 0 of a log
spanning [0, 70] lies in exactly one window. -/
theorem C3_no_event_lost_witness :
    (set_time_interval logTwoIntervals).countP
      (fun iv => decide ((⟨"f", 1, 0, 3⟩ : AccessEvent) ∈
        read_logfile logTwoIntervals iv.1 iv.2)) = 1 :=
  C3_no_event_lost logTwoIntervals ⟨"f", 1, 0, 3⟩
    (by with_unfolding_all decide) (Or.inl (by with_unfolding_all decide))

/-- Counterexample to C3 as stated: in a log with events at minutes 0 and
60, the event carrying the maximum timestamp (minute 60) falls in no
produced window: the only window is `[0, 60)` and the filter is
`timestamp < 60`. -/
theorem C3_counterexample :
    (⟨"f", 1, 60, 3⟩ : AccessEvent) ∈ logExactBoundary ∧
    (set_time_interval logExactBoundary).countP
      (fun iv => decide ((⟨"f", 1, 60, 3⟩ : AccessEvent) ∈
        read_logfile logExactBoundary iv.1 iv.2)) = 0 := by
  with_unfolding_all decide

end Replica

namespace Replica

/-! ### Rounding and the popularity-degree guard -/

theorem roundHalfEven_le_add_one (x : ℚ) : roundHalfEven x ≤ ⌊x⌋ + 1 := by
  simp only [roundHalfEven]
  split_ifs <;> omega

theorem roundHalfEven_eq_floor {x : ℚ} (h : x - ((⌊x⌋ : ℤ) : ℚ) < 1 / 2) :
    roundHalfEven x = ⌊x⌋ := by
  simp only [roundHalfEven]
  rw [if_pos h]

theorem one_le_calcNewRf (DN_count crf_i dnc_i : ℤ) :
    1 ≤ calcNewRf DN_count crf_i dnc_i :=
  le_max_left _ _

theorem calcNewRf_le {DN_count crf_i dnc_i : ℤ}
    (hcrf : 1 ≤ crf_i) (hdn : dnc_i ≤ DN_count) (hDN : 1 ≤ DN_count) :
    calcNewRf DN_count crf_i dnc_i ≤ crf_i := by
  unfold calcNewRf
  set x : ℚ := ((crf_i * dnc_i : ℤ) : ℚ) / (DN_count : ℚ) with hx
  have hDNpos : (0 : ℚ) < (DN_count : ℚ) := by exact_mod_cast hDN
  have hxle : x ≤ (crf_i : ℚ) := by
    rw [hx, div_le_iff₀ hDNpos]
    push_cast
    exact mul_le_mul_of_nonneg_left (by exact_mod_cast hdn)
      (by exact_mod_cast le_trans zero_le_one hcrf)
  have hfloor : ⌊x⌋ ≤ crf_i := by
    have h1 := Int.floor_le_floor hxle
    simpa using h1
  have hround : roundHalfEven x ≤ crf_i := by
    by_cases h1 : x - ((⌊x⌋ : ℤ) : ℚ) < 1 / 2
    · rw [roundHalfEven_eq_floor h1]
      exact hfloor
    · have h2 : ⌊x⌋ < crf_i := by
        rcases lt_or_eq_of_le hfloor with h | h
        · exact h
        · exfalso
          apply h1
          have hxeq : x = (crf_i : ℚ) :=
            le_antisymm hxle (by rw [← h]; exact Int.floor_le x)
          rw [h, hxeq]
          norm_num
      calc roundHalfEven x ≤ ⌊x⌋ + 1 := roundHalfEven_le_add_one x
        _ ≤ crf_i := by omega
  exact max_le hcrf hround

theorem pdDenom_ne_zero (c : ℤ) : pdDenom c ≠ 0 := by
  unfold pdDenom
  split_ifs with h
  · norm_num
  · exact h

/-- C8 (corrected): for non-negative `crf_i` the popularity degree equals
`(ac_i * dnc_i * w_i) / max(crf_i, 1)`, and the denominator the code
divides by is never zero for any integer `crf_i` (only `crf_i = 0` is
replaced by 1). For negative `crf_i` the source divides by the negative
value itself, where the claim's `max(crf_i, 1)` formula would divide
by 1. -/
theorem C8_popularity_degree (ac_i dnc_i w_i crf_i : ℤ)
    (hac : 0 ≤ ac_i) (hdnc : 0 ≤ dnc_i)
    (hw : w_i = 1 ∨ w_i = 2 ∨ w_i = 3 ∨ w_i = 4)
    (hcrf : 0 ≤ crf_i) :
    calculate_popularity_degree ac_i dnc_i w_i crf_i =
      ((ac_i * dnc_i * w_i : ℤ) : ℚ) / ((max crf_i 1 : ℤ) : ℚ) ∧
    ∀ c : ℤ, pdDenom c ≠ 0 := by
  refine ⟨?_, pdDenom_ne_zero⟩
  have hmax : max crf_i 1 = pdDenom crf_i := by
    unfold pdDenom
    split_ifs with h
    · subst h
      simp
    · have h1 : 1 ≤ crf_i := by omega
      exact max_eq_left h1
  rw [hmax]
  rfl

/-- Witness for C8 at `crf_i = 0`: the guard substitutes denominator 1. -/
theorem C8_popularity_degree_witness :
    calculate_popularity_degree 2 1 1 0 =
      ((2 * 1 * 1 : ℤ) : ℚ) / ((max (0 : ℤ) 1 : ℤ) : ℚ) ∧
    ∀ c : ℤ, pdDenom c ≠ 0 :=
  C8_popularity_degree 2 1 1 0 (by norm_num) (by norm_num) (Or.inl rfl)
    (by norm_num)

/-- Counterexample to C8 as stated: the claim quantifies over any integer
`crf_i`, but at `crf_i = -1` the source computes `(1*1*1)/(-1) = -1`
while the claim's formula `(1*1*1)/max(-1,1) = 1`. -/
theorem C8_counterexample :
    calculate_popularity_degree 1 1 1 (-1) = -1 ∧
    ((1 * 1 * 1 : ℤ) : ℚ) / ((max (-1 : ℤ) 1 : ℤ) : ℚ) = 1 := by
  constructor
  · with_unfolding_all decide
  · norm_num

end Replica

namespace Replica

/-! ### The classifier -/

theorem classify_one_table {T : ℚ} {m : FileMetrics}
    (hw : m.w_i = 1 ∨ m.w_i = 2 ∨ m.w_i = 3 ∨ m.w_i = 4) :
    classify_one T m =
      if m.PD_i ≥ T then
        (if m.w_i = 3 ∨ m.w_i = 4 then Classification.HOT else .WARM)
      else
        (if m.w_i = 3 ∨ m.w_i = 4 then .WARM else .COLD) := by
  unfold classify_one
  by_cases hp : m.PD_i ≥ T <;> by_cases h34 : m.w_i = 3 ∨ m.w_i = 4
  · rw [if_pos ⟨hp, h34⟩, if_pos hp, if_pos h34]
  · have h12 : m.w_i = 1 ∨ m.w_i = 2 := by omega
    rw [if_neg (by tauto), if_pos ⟨hp, h12⟩, if_pos hp, if_neg h34]
  · have hlt : m.PD_i < T := not_le.1 hp
    rw [if_neg (by tauto), if_neg (by tauto), if_pos ⟨hlt, h34⟩, if_neg hp,
      if_pos h34]
  · rw [if_neg (by tauto), if_neg (by tauto), if_neg (by tauto), if_neg hp,
      if_neg h34]

theorem classify_files_length (metrics : List FileMetrics) (T : ℚ) :
    (classify_files metrics T).1.length +
      (classify_files metrics T).2.1.length +
      (classify_files metrics T).2.2.length = metrics.length := by
  induction metrics with
  | nil => rfl
  | cons m rest ih =>
    unfold classify_files
    cases hcm : classify_one T m <;>
      simp only [hcm, List.length_cons] <;> omega

theorem classify_mem_hot (metrics : List FileMetrics) (T : ℚ) :
    ∀ c ∈ (classify_files metrics T).1, c.classification = .HOT := by
  induction metrics with
  | nil => intro c hc; simp [classify_files] at hc
  | cons m rest ih =>
    intro c hc
    unfold classify_files at hc
    cases hcm : classify_one T m <;> simp only [hcm] at hc
    · rcases List.mem_cons.1 hc with h | h
      · rw [h]
      · exact ih c h
    · exact ih c hc
    · exact ih c hc

theorem classify_mem_warm (metrics : List FileMetrics) (T : ℚ) :
    ∀ c ∈ (classify_files metrics T).2.1, c.classification = .WARM := by
  induction metrics with
  | nil => intro c hc; simp [classify_files] at hc
  | cons m rest ih =>
    intro c hc
    unfold classify_files at hc
    cases hcm : classify_one T m <;> simp only [hcm] at hc
    · exact ih c hc
    · rcases List.mem_cons.1 hc with h | h
      · rw [h]
      · exact ih c h
    · exact ih c hc

theorem classify_mem_cold (metrics : List FileMetrics) (T : ℚ) :
    ∀ c ∈ (classify_files metrics T).2.2, c.classification = .COLD := by
  induction metrics with
  | nil => intro c hc; simp [classify_files] at hc
  | cons m rest ih =>
    intro c hc
    unfold classify_files at hc
    cases hcm : classify_one T m <;> simp only [hcm] at hc
    · exact ih c hc
    · exact ih c hc
    · rcases List.mem_cons.1 hc with h | h
      · rw [h]
      · exact ih c h

/-- C7 (confirmed): on metric rows whose weight lies in {1,2,3,4} (as every
row produced by `calculate_weight` does), each row is classified exactly
once by the 2×2 table on `(PD_i ≥ T, w_i ∈ {3,4})`, and the emitted HD, WD,
CD lists partition the input: lengths add up and the lists are pairwise
disjoint. -/
theorem C7_classifier_partition (metrics : List FileMetrics) (T : ℚ)
    (hw : ∀ m ∈ metrics, m.w_i = 1 ∨ m.w_i = 2 ∨ m.w_i = 3 ∨ m.w_i = 4) :
    (∀ m ∈ metrics,
      classify_one T m =
        if m.PD_i ≥ T then
          (if m.w_i = 3 ∨ m.w_i = 4 then Classification.HOT else .WARM)
        else
          (if m.w_i = 3 ∨ m.w_i = 4 then .WARM else .COLD)) ∧
    ((classify_files metrics T).1.length +
      (classify_files metrics T).2.1.length +
      (classify_files metrics T).2.2.length = metrics.length) ∧
    (∀ c, ¬ (c ∈ (classify_files metrics T).1 ∧
      c ∈ (classify_files metrics T).2.1)) ∧
    (∀ c, ¬ (c ∈ (classify_files metrics T).1 ∧
      c ∈ (classify_files metrics T).2.2)) ∧
    (∀ c, ¬ (c ∈ (classify_files metrics T).2.1 ∧
      c ∈ (classify_files metrics T).2.2)) := by
  refine ⟨fun m hm => classify_one_table (hw m hm),
    classify_files_length metrics T, fun c hc => ?_, fun c hc => ?_,
    fun c hc => ?_⟩
  · have h1 := classify_mem_hot metrics T c hc.1
    have h2 := classify_mem_warm metrics T c hc.2
    rw [h1] at h2
    exact Classification.noConfusion h2
  · have h1 := classify_mem_hot metrics T c hc.1
    have h2 := classify_mem_cold metrics T c hc.2
    rw [h1] at h2
    exact Classification.noConfusion h2
  · have h1 := classify_mem_warm metrics T c hc.1
    have h2 := classify_mem_cold metrics T c hc.2
    rw [h1] at h2
    exact Classification.noConfusion h2

/-- Witness for C7 at a concrete two-row metrics table. -/
theorem C7_classifier_partition_witness :
    (classify_files [⟨"x", 1, 1, 1, 4, 10⟩, ⟨"y", 1, 1, 1, 1, 0⟩] 5).1.length +
      (classify_files [⟨"x", 1, 1, 1, 4, 10⟩, ⟨"y", 1, 1, 1, 1, 0⟩] 5).2.1.length +
      (classify_files [⟨"x", 1, 1, 1, 4, 10⟩, ⟨"y", 1, 1, 1, 1, 0⟩] 5).2.2.length =
      ([⟨"x", 1, 1, 1, 4, 10⟩, ⟨"y", 1, 1, 1, 1, 0⟩] : List FileMetrics).length :=
  (C7_classifier_partition [⟨"x", 1, 1, 1, 4, 10⟩, ⟨"y", 1, 1, 1, 1, 0⟩] 5
    (by with_unfolding_all decide)).2.1

end Replica

namespace Replica

/-! ### First-occurrence deduplication -/

theorem mem_dedupFirstAux :
    ∀ (l : List String) (seen : List String) (x : String),
      x ∈ dedupFirstAux seen l ↔ x ∈ l ∧ x ∉ seen := by
  intro l
  induction l with
  | nil => intro seen x; simp [dedupFirstAux]
  | cons f fs ih =>
    intro seen x
    by_cases hf : f ∈ seen
    · rw [show dedupFirstAux seen (f :: fs) = dedupFirstAux seen fs from by
        simp [dedupFirstAux, hf]]
      rw [ih]
      constructor
      · rintro ⟨h1, h2⟩
        exact ⟨List.mem_cons_of_mem _ h1, h2⟩
      · rintro ⟨h1, h2⟩
        rcases List.mem_cons.1 h1 with h | h
        · subst h; exact absurd hf h2
        · exact ⟨h, h2⟩
    · rw [show dedupFirstAux seen (f :: fs) = f :: dedupFirstAux (f :: seen) fs
        from by simp [dedupFirstAux, hf]]
      rw [List.mem_cons, ih]
      constructor
      · rintro (h | ⟨h1, h2⟩)
        · subst h; exact ⟨List.mem_cons_self _ _, hf⟩
        · refine ⟨List.mem_cons_of_mem _ h1, fun hc => h2 (List.mem_cons_of_mem _ hc)⟩
      · rintro ⟨h1, h2⟩
        rcases List.mem_cons.1 h1 with h | h
        · exact Or.inl h
        · by_cases hxf : x = f
          · exact Or.inl hxf
          · exact Or.inr ⟨h, fun hc => by
              rcases List.mem_cons.1 hc with h' | h'
              · exact hxf h'
              · exact h2 h'⟩

theorem nodup_dedupFirstAux :
    ∀ (l : List String) (seen : List String), (dedupFirstAux seen l).Nodup := by
  intro l
  induction l with
  | nil => intro seen; simp [dedupFirstAux]
  | cons f fs ih =>
    intro seen
    by_cases hf : f ∈ seen
    · rw [show dedupFirstAux seen (f :: fs) = dedupFirstAux seen fs from by
        simp [dedupFirstAux, hf]]
      exact ih seen
    · rw [show dedupFirstAux seen (f :: fs) = f :: dedupFirstAux (f :: seen) fs
        from by simp [dedupFirstAux, hf]]
      refine List.nodup_cons.2 ⟨fun hc => ?_, ih (f :: seen)⟩
      exact ((mem_dedupFirstAux fs (f :: seen) f).1 hc).2 (List.mem_cons_self _ _)

theorem nodup_uniqueFilenames (logs : List AccessEvent) :
    (uniqueFilenames logs).Nodup :=
  nodup_dedupFirstAux _ _

theorem mem_uniqueFilenames (logs : List AccessEvent) (x : String) :
    x ∈ uniqueFilenames logs ↔ x ∈ logs.map (·.filename) := by
  unfold uniqueFilenames
  rw [mem_dedupFirstAux]
  simp

/-! ### Per-file aggregation -/

theorem process_files_aux_filenames (DN_count : ℤ) (logs : List AccessEvent) :
    ∀ (names : List String) (st : RState),
      ((process_files_aux DN_count logs names st).1).map (·.filename) = names := by
  intro names
  induction names with
  | nil => intro st; rfl
  | cons f fs ih =>
    intro st
    cases hl : rfLookup st f <;>
      simp only [process_files_aux, hl, List.map_cons] <;>
      exact congrArg (f :: ·) (ih _)

theorem process_files_aux_length (DN_count : ℤ) (logs : List AccessEvent)
    (names : List String) (st : RState) :
    (process_files_aux DN_count logs names st).1.length = names.length := by
  have h := process_files_aux_filenames DN_count logs names st
  calc (process_files_aux DN_count logs names st).1.length
      = ((process_files_aux DN_count logs names st).1.map (·.filename)).length :=
        (List.length_map _ _).symm
    _ = names.length := by rw [h]

theorem process_files_aux_state_not_mem (DN_count : ℤ) (logs : List AccessEvent) :
    ∀ (names : List String) (st : RState) (f : String), f ∉ names →
      rfLookup (process_files_aux DN_count logs names st).2 f = rfLookup st f := by
  intro names
  induction names with
  | nil => intro st f _; rfl
  | cons g gs ih =>
    intro st f hf
    have hfg : f ≠ g := fun h => hf (h ▸ List.mem_cons_self _ _)
    have hfgs : f ∉ gs := fun h => hf (List.mem_cons_of_mem _ h)
    cases hl : rfLookup st g <;> simp only [process_files_aux, hl]
    · rw [ih _ f hfgs]
      exact rfLookup_rfInsert_ne st _ hfg
    · exact ih _ f hfgs

theorem process_files_aux_fields (DN_count : ℤ) (logs : List AccessEvent) :
    ∀ (names : List String) (st : RState), names.Nodup →
      ∀ m ∈ (process_files_aux DN_count logs names st).1,
        m.ac_i = ((logs.filter (fun e => e.filename = m.filename)).length : ℤ) ∧
        m.dnc_i = (((logs.filter
          (fun e => e.filename = m.filename)).map (·.node_id)).dedup.length : ℤ) ∧
        m.w_i = calculate_weight m.dnc_i DN_count ∧
        m.PD_i = calculate_popularity_degree m.ac_i m.dnc_i m.w_i m.crf_i ∧
        m.crf_i = (rfLookup st m.filename).getD
          (firstCrf (logs.filter (fun e => e.filename = m.filename))) := by
  intro names
  induction names with
  | nil => intro st _ m hm; simp [process_files_aux] at hm
  | cons f fs ih =>
    intro st hnd m hm
    have hnd1 : f ∉ fs := (List.nodup_cons.1 hnd).1
    have hnd2 : fs.Nodup := (List.nodup_cons.1 hnd).2
    cases hl : rfLookup st f <;> simp only [process_files_aux, hl] at hm
    · rcases List.mem_cons.1 hm with h | h
      · subst h
        refine ⟨rfl, rfl, rfl, rfl, ?_⟩
        simp [hl]
      · have hres := ih (rfInsert st f (firstCrf
          (logs.filter (fun e => e.filename = f)))) hnd2 m h
        refine ⟨hres.1, hres.2.1, hres.2.2.1, hres.2.2.2.1, ?_⟩
        rw [hres.2.2.2.2]
        have hmf : m.filename ∈ fs := by
          have := process_files_aux_filenames DN_count logs fs
            (rfInsert st f (firstCrf (logs.filter (fun e => e.filename = f))))
          rw [← this]
          exact List.mem_map_of_mem _ h
        have hne : m.filename ≠ f := fun hc => hnd1 (hc ▸ hmf)
        rw [rfLookup_rfInsert_ne st _ hne]
    · rcases List.mem_cons.1 hm with h | h
      · subst h
        refine ⟨rfl, rfl, rfl, rfl, ?_⟩
        simp [hl]
      · exact ih st hnd2 m h

theorem process_files_aux_state_mem (DN_count : ℤ) (logs : List AccessEvent) :
    ∀ (names : List String) (st : RState), names.Nodup →
      ∀ m ∈ (process_files_aux DN_count logs names st).1,
        rfLookup (process_files_aux DN_count logs names st).2 m.filename =
          some m.crf_i := by
  intro names
  induction names with
  | nil => intro st _ m hm; simp [process_files_aux] at hm
  | cons f fs ih =>
    intro st hnd m hm
    have hnd1 : f ∉ fs := (List.nodup_cons.1 hnd).1
    have hnd2 : fs.Nodup := (List.nodup_cons.1 hnd).2
    cases hl : rfLookup st f <;> simp only [process_files_aux, hl] at hm ⊢
    · rcases List.mem_cons.1 hm with h | h
      · subst h
        rw [process_files_aux_state_not_mem DN_count logs fs _ _ hnd1]
        exact rfLookup_rfInsert_self st f _
      · exact ih _ hnd2 m h
    · rcases List.mem_cons.1 hm with h | h
      · subst h
        rw [process_files_aux_state_not_mem DN_count logs fs _ _ hnd1]
        exact hl
      · exact ih _ hnd2 m h

end Replica

namespace Replica

/-! ### Classified rows versus their metric rows -/

theorem classify_files_perm (metrics : List FileMetrics) (T : ℚ) :
    ((classify_files metrics T).1.map (·.toFileMetrics) ++
      ((classify_files metrics T).2.1.map (·.toFileMetrics) ++
        (classify_files metrics T).2.2.map (·.toFileMetrics))).Perm metrics := by
  induction metrics with
  | nil => simp [classify_files]
  | cons m rest ih =>
    unfold classify_files
    cases hcm : classify_one T m <;>
      simp only [hcm, List.map_cons, List.cons_append]
    · exact ih.cons m
    · exact List.Perm.trans List.perm_middle (ih.cons m)
    · rw [← List.append_assoc]
      refine List.Perm.trans List.perm_middle ?_
      rw [List.append_assoc]
      exact ih.cons m

theorem classify_sub_metrics (metrics : List FileMetrics) (T : ℚ) :
    ∀ c : ClassifiedFile,
      (c ∈ (classify_files metrics T).1 ∨ c ∈ (classify_files metrics T).2.1 ∨
        c ∈ (classify_files metrics T).2.2) → c.toFileMetrics ∈ metrics := by
  intro c hc
  apply (classify_files_perm metrics T).mem_iff.1
  rcases hc with h | h | h
  · exact List.mem_append.2 (Or.inl (List.mem_map_of_mem _ h))
  · exact List.mem_append.2 (Or.inr (List.mem_append.2
      (Or.inl (List.mem_map_of_mem _ h))))
  · exact List.mem_append.2 (Or.inr (List.mem_append.2
      (Or.inr (List.mem_map_of_mem _ h))))

theorem classify_filenames_perm (metrics : List FileMetrics) (T : ℚ) :
    ((((classify_files metrics T).1 ++ (classify_files metrics T).2.1) ++
      (classify_files metrics T).2.2).map
        (fun c : ClassifiedFile => c.filename)).Perm
      (metrics.map (·.filename)) := by
  have h := (classify_files_perm metrics T).map (·.filename)
  simp only [List.map_append, List.map_map] at h
  simpa [List.append_assoc] using h

/-! ### The replication-factor updaters -/

theorem calculate_new_rf_rows (DN_count : ℤ) :
    ∀ (rows : List ClassifiedFile) (st : RState),
      (calculate_new_rf_for_hot_warm DN_count rows st).1 =
        rows.map (fun c => ⟨c, calcNewRf DN_count c.crf_i c.dnc_i⟩) := by
  intro rows
  induction rows with
  | nil => intro st; rfl
  | cons c rest ih =>
    intro st
    simp only [calculate_new_rf_for_hot_warm, List.map_cons]
    rw [ih]

theorem process_cold_rows :
    ∀ (rows : List ClassifiedFile) (st : RState),
      (process_cold_data rows st).1 = rows.map (fun c => ⟨c, 1⟩) := by
  intro rows
  induction rows with
  | nil => intro st; rfl
  | cons c rest ih =>
    intro st
    simp only [process_cold_data, List.map_cons]
    rw [ih]

theorem calculate_new_rf_state_not_mem (DN_count : ℤ) :
    ∀ (rows : List ClassifiedFile) (st : RState) (f : String),
      (∀ c ∈ rows, c.filename ≠ f) →
      rfLookup (calculate_new_rf_for_hot_warm DN_count rows st).2 f =
        rfLookup st f := by
  intro rows
  induction rows with
  | nil => intro st f _; rfl
  | cons c rest ih =>
    intro st f hf
    simp only [calculate_new_rf_for_hot_warm]
    rw [ih _ f (fun d hd => hf d (List.mem_cons_of_mem _ hd))]
    exact rfLookup_rfInsert_ne st _ (fun h => hf c (List.mem_cons_self _ _) h.symm)

theorem process_cold_state_not_mem :
    ∀ (rows : List ClassifiedFile) (st : RState) (f : String),
      (∀ c ∈ rows, c.filename ≠ f) →
      rfLookup (process_cold_data rows st).2 f = rfLookup st f := by
  intro rows
  induction rows with
  | nil => intro st f _; rfl
  | cons c rest ih =>
    intro st f hf
    simp only [process_cold_data]
    rw [ih _ f (fun d hd => hf d (List.mem_cons_of_mem _ hd))]
    exact rfLookup_rfInsert_ne st _ (fun h => hf c (List.mem_cons_self _ _) h.symm)

theorem calculate_new_rf_state_mem (DN_count : ℤ) :
    ∀ (rows : List ClassifiedFile) (st : RState),
      (rows.map (fun c : ClassifiedFile => c.filename)).Nodup →
      ∀ c ∈ rows,
        rfLookup (calculate_new_rf_for_hot_warm DN_count rows st).2 c.filename =
          some (calcNewRf DN_count c.crf_i c.dnc_i) := by
  intro rows
  induction rows with
  | nil => intro st _ c hc; simp at hc
  | cons d rest ih =>
    intro st hnd c hc
    have hnd1 := (List.nodup_cons.1 hnd).1
    have hnd2 := (List.nodup_cons.1 hnd).2
    rcases List.mem_cons.1 hc with h | h
    · subst h
      simp only [calculate_new_rf_for_hot_warm]
      rw [calculate_new_rf_state_not_mem DN_count rest _ c.filename
        (fun e he hne => absurd
          (List.mem_map_of_mem (fun x : ClassifiedFile => x.filename) he)
          (by simpa [hne] using hnd1))]
      exact rfLookup_rfInsert_self st _ _
    · simp only [calculate_new_rf_for_hot_warm]
      exact ih _ hnd2 c h

theorem process_cold_state_mem :
    ∀ (rows : List ClassifiedFile) (st : RState),
      (rows.map (fun c : ClassifiedFile => c.filename)).Nodup →
      ∀ c ∈ rows,
        rfLookup (process_cold_data rows st).2 c.filename = some 1 := by
  intro rows
  induction rows with
  | nil => intro st _ c hc; simp at hc
  | cons d rest ih =>
    intro st hnd c hc
    have hnd1 := (List.nodup_cons.1 hnd).1
    have hnd2 := (List.nodup_cons.1 hnd).2
    rcases List.mem_cons.1 hc with h | h
    · subst h
      simp only [process_cold_data]
      rw [process_cold_state_not_mem rest _ c.filename
        (fun e he hne => absurd
          (List.mem_map_of_mem (fun x : ClassifiedFile => x.filename) he)
          (by simpa [hne] using hnd1))]
      exact rfLookup_rfInsert_self st _ _
    · simp only [process_cold_data]
      exact ih _ hnd2 c h

/-! ### The result sink -/

theorem mem_save_interval (start_time end_time : ℤ) (T : ℚ)
    (hotWarm cold : List UpdatedFile) (r : ResultRow) :
    r ∈ save_interval_results start_time end_time T hotWarm cold ↔
      ∃ u ∈ hotWarm ++ cold,
        ({ toUpdatedFile := u, erasure_coding := decide (u.nrf_i = 1),
           threshold := T, interval_start := start_time,
           interval_end := end_time } : ResultRow) = r := by
  unfold save_interval_results
  rw [List.mem_insertionSort, List.mem_map]

end Replica

namespace Replica

/-! ### One interval of the engine loop -/

theorem calculate_threshold_error_iff (metrics : List FileMetrics)
    (DN_count : ℤ) :
    calculate_threshold metrics DN_count = .error .emptyInterval ↔
      metrics = [] := by
  unfold calculate_threshold
  cases metrics <;> simp

theorem uniqueFilenames_ne_nil {logs : List AccessEvent} (h : logs ≠ []) :
    uniqueFilenames logs ≠ [] := by
  cases logs with
  | nil => exact absurd rfl h
  | cons e es =>
    intro hc
    have : e.filename ∈ uniqueFilenames (e :: es) :=
      (mem_uniqueFilenames _ _).2 (by simp)
    rw [hc] at this
    simp at this

theorem process_files_metrics_ne_nil (DN_count : ℤ) {logs : List AccessEvent}
    (h : logs ≠ []) (st : RState) :
    (process_files DN_count logs st).1 ≠ [] := by
  intro hc
  have h1 : (process_files DN_count logs st).1.length =
      (uniqueFilenames logs).length :=
    process_files_aux_length DN_count logs (uniqueFilenames logs) st
  rw [hc] at h1
  exact uniqueFilenames_ne_nil h (List.length_eq_zero.1 h1.symm)

theorem processInterval_error_of_empty (DN_count : ℤ) (df : List AccessEvent)
    (st : RState) (iv : ℤ × ℤ) (h : read_logfile df iv.1 iv.2 = []) :
    processInterval DN_count df st iv = .error .emptyInterval := by
  simp only [processInterval, h]
  rfl

theorem processInterval_ok_of_nonempty (DN_count : ℤ) (df : List AccessEvent)
    (st : RState) (iv : ℤ × ℤ) (h : read_logfile df iv.1 iv.2 ≠ []) :
    ∃ p, processInterval DN_count df st iv = .ok p := by
  simp only [processInterval]
  cases hth : calculate_threshold
      (process_files DN_count (read_logfile df iv.1 iv.2) st).1 DN_count with
  | error e =>
    cases e
    exact absurd ((calculate_threshold_error_iff _ _).1 hth)
      (process_files_metrics_ne_nil DN_count h st)
  | ok T => exact ⟨_, rfl⟩

theorem processInterval_ok_elim {DN_count : ℤ} {df : List AccessEvent}
    {st : RState} {iv : ℤ × ℤ} {res : List ResultRow} {st' : RState}
    (hok : processInterval DN_count df st iv = .ok (res, st')) :
    ∃ T : ℚ,
      calculate_threshold
        (process_files DN_count (read_logfile df iv.1 iv.2) st).1 DN_count =
        .ok T ∧
      res = save_interval_results iv.1 iv.2 T
        (calculate_new_rf_for_hot_warm DN_count
          ((classify_files
            (process_files DN_count (read_logfile df iv.1 iv.2) st).1 T).1 ++
           (classify_files
            (process_files DN_count (read_logfile df iv.1 iv.2) st).1 T).2.1)
          (process_files DN_count (read_logfile df iv.1 iv.2) st).2).1
        (process_cold_data
          (classify_files
            (process_files DN_count (read_logfile df iv.1 iv.2) st).1 T).2.2
          (calculate_new_rf_for_hot_warm DN_count
            ((classify_files
              (process_files DN_count (read_logfile df iv.1 iv.2) st).1 T).1 ++
             (classify_files
              (process_files DN_count (read_logfile df iv.1 iv.2) st).1 T).2.1)
            (process_files DN_count (read_logfile df iv.1 iv.2) st).2).2).1 ∧
      st' = (process_cold_data
          (classify_files
            (process_files DN_count (read_logfile df iv.1 iv.2) st).1 T).2.2
          (calculate_new_rf_for_hot_warm DN_count
            ((classify_files
              (process_files DN_count (read_logfile df iv.1 iv.2) st).1 T).1 ++
             (classify_files
              (process_files DN_count (read_logfile df iv.1 iv.2) st).1 T).2.1)
            (process_files DN_count (read_logfile df iv.1 iv.2) st).2).2).2 := by
  simp only [processInterval] at hok
  cases hth : calculate_threshold
      (process_files DN_count (read_logfile df iv.1 iv.2) st).1 DN_count with
  | error e =>
    rw [hth] at hok
    exact absurd hok (by simp)
  | ok T =>
    rw [hth] at hok
    simp only [Except.ok.injEq, Prod.mk.injEq] at hok
    exact ⟨T, rfl, hok.1.symm, hok.2.symm⟩

end Replica

namespace Replica

theorem processInterval_rows {DN_count : ℤ} {df : List AccessEvent}
    {st : RState} {iv : ℤ × ℤ} {res : List ResultRow} {st' : RState}
    (hok : processInterval DN_count df st iv = .ok (res, st')) :
    ∀ r ∈ res,
      r.toFileMetrics ∈
        (process_files DN_count (read_logfile df iv.1 iv.2) st).1 ∧
      r.erasure_coding = decide (r.nrf_i = 1) ∧
      ((r.classification = .HOT ∨ r.classification = .WARM) →
        r.nrf_i = calcNewRf DN_count r.crf_i r.dnc_i) ∧
      (r.classification = .COLD → r.nrf_i = 1) := by
  obtain ⟨T, hth, hres, hst⟩ := processInterval_ok_elim hok
  intro r hr
  rw [hres, mem_save_interval] at hr
  obtain ⟨u, hu, hru⟩ := hr
  rw [calculate_new_rf_rows, process_cold_rows] at hu
  subst hru
  rcases List.mem_append.1 hu with h | h
  · rw [List.mem_map] at h
    obtain ⟨c, hc, hcu⟩ := h
    subst hcu
    rcases List.mem_append.1 hc with hH | hW
    · have hclass := classify_mem_hot _ _ c hH
      refine ⟨classify_sub_metrics _ _ c (Or.inl hH), rfl, fun _ => rfl,
        fun hcold => ?_⟩
      have hc2 : c.classification = .COLD := hcold
      rw [hclass] at hc2
      exact Classification.noConfusion hc2
    · have hclass := classify_mem_warm _ _ c hW
      refine ⟨classify_sub_metrics _ _ c (Or.inr (Or.inl hW)), rfl,
        fun _ => rfl, fun hcold => ?_⟩
      have hc2 : c.classification = .COLD := hcold
      rw [hclass] at hc2
      exact Classification.noConfusion hc2
  · rw [List.mem_map] at h
    obtain ⟨c, hc, hcu⟩ := h
    subst hcu
    have hclass := classify_mem_cold _ _ c hc
    refine ⟨classify_sub_metrics _ _ c (Or.inr (Or.inr hc)), rfl,
      fun hhw => ?_, fun _ => rfl⟩
    have hc2 : c.classification = .HOT ∨ c.classification = .WARM := hhw
    rw [hclass] at hc2
    rcases hc2 with h2 | h2 <;> exact Classification.noConfusion h2

end Replica

namespace Replica

theorem process_files_filenames_nodup (DN_count : ℤ) (logs : List AccessEvent)
    (st : RState) :
    (((process_files DN_count logs st).1).map (·.filename)).Nodup := by
  unfold process_files
  rw [process_files_aux_filenames]
  exact nodup_uniqueFilenames logs

theorem processInterval_row_exists {DN_count : ℤ} {df : List AccessEvent}
    {st : RState} {iv : ℤ × ℤ} {res : List ResultRow} {st' : RState}
    (hok : processInterval DN_count df st iv = .ok (res, st')) :
    ∀ m ∈ (process_files DN_count (read_logfile df iv.1 iv.2) st).1,
      ∃ r ∈ res, r.toFileMetrics = m := by
  obtain ⟨T, hth, hres, hst⟩ := processInterval_ok_elim hok
  set logs := read_logfile df iv.1 iv.2 with hlogs
  set pf := process_files DN_count logs st with hpf
  set cls := classify_files pf.1 T with hcls
  set hw := calculate_new_rf_for_hot_warm DN_count (cls.1 ++ cls.2.1) pf.2
    with hhw
  set cd := process_cold_data cls.2.2 hw.2 with hcd
  intro m hm
  have hperm := classify_files_perm pf.1 T
  rw [← hcls] at hperm
  have hm2 := hperm.mem_iff.2 hm
  rcases List.mem_append.1 hm2 with h | h
  · rw [List.mem_map] at h
    obtain ⟨c, hc, hcm⟩ := h
    refine ⟨⟨⟨c, calcNewRf DN_count c.crf_i c.dnc_i⟩,
      decide ((calcNewRf DN_count c.crf_i c.dnc_i) = 1), T, iv.1, iv.2⟩,
      ?_, hcm⟩
    rw [hres, mem_save_interval]
    refine ⟨⟨c, calcNewRf DN_count c.crf_i c.dnc_i⟩, ?_, rfl⟩
    rw [hhw, calculate_new_rf_rows, hcd, process_cold_rows]
    exact List.mem_append.2 (Or.inl (List.mem_map_of_mem _ (List.mem_append.2
      (Or.inl hc))))
  · rcases List.mem_append.1 h with h2 | h2
    · rw [List.mem_map] at h2
      obtain ⟨c, hc, hcm⟩ := h2
      refine ⟨⟨⟨c, calcNewRf DN_count c.crf_i c.dnc_i⟩,
        decide ((calcNewRf DN_count c.crf_i c.dnc_i) = 1), T, iv.1, iv.2⟩,
        ?_, hcm⟩
      rw [hres, mem_save_interval]
      refine ⟨⟨c, calcNewRf DN_count c.crf_i c.dnc_i⟩, ?_, rfl⟩
      rw [hhw, calculate_new_rf_rows, hcd, process_cold_rows]
      exact List.mem_append.2 (Or.inl (List.mem_map_of_mem _
        (List.mem_append.2 (Or.inr hc))))
    · rw [List.mem_map] at h2
      obtain ⟨c, hc, hcm⟩ := h2
      refine ⟨⟨⟨c, 1⟩, decide ((1 : ℤ) = 1), T, iv.1, iv.2⟩, ?_, hcm⟩
      rw [hres, mem_save_interval]
      refine ⟨⟨c, 1⟩, ?_, rfl⟩
      rw [hhw, calculate_new_rf_rows, hcd, process_cold_rows]
      exact List.mem_append.2 (Or.inr (List.mem_map_of_mem _ hc))

theorem processInterval_state {DN_count : ℤ} {df : List AccessEvent}
    {st : RState} {iv : ℤ × ℤ} {res : List ResultRow} {st' : RState}
    (hok : processInterval DN_count df st iv = .ok (res, st')) :
    (∀ r ∈ res, rfLookup st' r.filename = some r.nrf_i) ∧
    (∀ f : String, (∀ r ∈ res, r.filename ≠ f) →
      rfLookup st' f = rfLookup st f) := by
  obtain ⟨T, hth, hres, hst⟩ := processInterval_ok_elim hok
  set logs := read_logfile df iv.1 iv.2 with hlogs
  set pf := process_files DN_count logs st with hpf
  set cls := classify_files pf.1 T with hcls
  set hw := calculate_new_rf_for_hot_warm DN_count (cls.1 ++ cls.2.1) pf.2
    with hhw
  set cd := process_cold_data cls.2.2 hw.2 with hcd
  have hmn : (pf.1.map (·.filename)).Nodup := by
    rw [hpf]
    exact process_files_filenames_nodup DN_count logs st
  have hperm := classify_filenames_perm pf.1 T
  rw [← hcls] at hperm
  have hnodupAll :
      ((((cls.1 ++ cls.2.1) ++ cls.2.2).map
        (fun c : ClassifiedFile => c.filename))).Nodup :=
    hperm.nodup_iff.2 hmn
  rw [List.map_append] at hnodupAll
  have hsplit := List.nodup_append.1 hnodupAll
  constructor
  · intro r hr
    rw [hres, mem_save_interval] at hr
    obtain ⟨u, hu, hru⟩ := hr
    rw [hhw, calculate_new_rf_rows, hcd, process_cold_rows] at hu
    subst hru
    rcases List.mem_append.1 hu with h | h
    · rw [List.mem_map] at h
      obtain ⟨c, hc, hcu⟩ := h
      subst hcu
      show rfLookup st' c.filename =
        some (calcNewRf DN_count c.crf_i c.dnc_i)
      rw [hst, hcd]
      rw [process_cold_state_not_mem cls.2.2 hw.2 c.filename
        (fun e he hne => hsplit.2.2 (List.mem_map_of_mem _ hc)
          (by rw [← hne]; exact List.mem_map_of_mem _ he))]
      rw [hhw]
      exact calculate_new_rf_state_mem DN_count (cls.1 ++ cls.2.1) pf.2
        hsplit.1 c hc
    · rw [List.mem_map] at h
      obtain ⟨c, hc, hcu⟩ := h
      subst hcu
      show rfLookup st' c.filename = some 1
      rw [hst, hcd]
      exact process_cold_state_mem cls.2.2 hw.2 hsplit.2.1 c hc
  · intro f hf
    have hrow := processInterval_row_exists hok
    rw [← hlogs, ← hpf] at hrow
    have hcls_ne : ∀ c : ClassifiedFile,
        (c ∈ cls.1 ∨ c ∈ cls.2.1 ∨ c ∈ cls.2.2) → c.filename ≠ f := by
      intro c hc hcf
      have hm : c.toFileMetrics ∈ pf.1 := by
        have := classify_sub_metrics pf.1 T c
        rw [← hcls] at this
        exact this hc
      obtain ⟨r, hrres, hrm⟩ := hrow _ hm
      apply hf r hrres
      show r.toFileMetrics.filename = f
      rw [hrm]
      exact hcf
    have hnames : f ∉ uniqueFilenames logs := by
      intro hfn
      have : f ∈ pf.1.map (·.filename) := by
        rw [hpf]
        unfold process_files
        rw [process_files_aux_filenames]
        exact hfn
      rw [List.mem_map] at this
      obtain ⟨m, hm, hmf⟩ := this
      obtain ⟨r, hrres, hrm⟩ := hrow m hm
      apply hf r hrres
      show r.toFileMetrics.filename = f
      rw [hrm]
      exact hmf
    rw [hst, hcd]
    rw [process_cold_state_not_mem cls.2.2 hw.2 f
      (fun c hc => hcls_ne c (Or.inr (Or.inr hc)))]
    rw [hhw]
    rw [calculate_new_rf_state_not_mem DN_count (cls.1 ++ cls.2.1) pf.2 f
      (fun c hc => hcls_ne c (by
        rcases List.mem_append.1 hc with h | h
        · exact Or.inl h
        · exact Or.inr (Or.inl h)))]
    rw [hpf]
    unfold process_files
    exact process_files_aux_state_not_mem DN_count logs
      (uniqueFilenames logs) st f hnames

theorem processInterval_crf {DN_count : ℤ} {df : List AccessEvent}
    {st : RState} {iv : ℤ × ℤ} {res : List ResultRow} {st' : RState}
    (hok : processInterval DN_count df st iv = .ok (res, st')) :
    ∀ r ∈ res,
      r.crf_i = (rfLookup st r.filename).getD
        (firstCrf ((read_logfile df iv.1 iv.2).filter
          (fun e => e.filename = r.filename))) := by
  intro r hr
  have hm := (processInterval_rows hok r hr).1
  have hfields := process_files_aux_fields DN_count (read_logfile df iv.1 iv.2)
    (uniqueFilenames (read_logfile df iv.1 iv.2)) st
    (nodup_uniqueFilenames _) r.toFileMetrics hm
  exact hfields.2.2.2.2

end Replica

namespace Replica

/-- C9 (confirmed): in every interval result, a row's `erasure_coding`
flag is true exactly when its `nrf_i` is 1 (the flag is computed as
`nrf_i == 1` in `save_interval_results`), and every COLD row has
`nrf_i = 1` with the flag set. -/
theorem C9_erasure_flag (DN_count : ℤ) (df : List AccessEvent) (st : RState)
    (iv : ℤ × ℤ) (res : List ResultRow) (st' : RState)
    (hok : processInterval DN_count df st iv = .ok (res, st'))
    (r : ResultRow) (hr : r ∈ res) :
    (r.erasure_coding = true ↔ r.nrf_i = 1) ∧
    (r.classification = .COLD → r.nrf_i = 1 ∧ r.erasure_coding = true) := by
  have h := processInterval_rows hok r hr
  constructor
  · rw [h.2.1]
    simp
  · intro hc
    refine ⟨h.2.2.2 hc, ?_⟩
    rw [h.2.1, h.2.2.2 hc]
    simp

/-- Witness for C9 at the single interval of `logPair`. -/
theorem C9_erasure_flag_witness :
    ((⟨⟨⟨⟨"f", 2, 1, 3, 1, 2/3⟩, .WARM⟩, 1⟩, true, 1/15, 0, 60⟩ :
        ResultRow).erasure_coding = true ↔
      (⟨⟨⟨⟨"f", 2, 1, 3, 1, 2/3⟩, .WARM⟩, 1⟩, true, 1/15, 0, 60⟩ :
        ResultRow).nrf_i = 1) ∧
    ((⟨⟨⟨⟨"f", 2, 1, 3, 1, 2/3⟩, .WARM⟩, 1⟩, true, 1/15, 0, 60⟩ :
        ResultRow).classification = .COLD →
      (⟨⟨⟨⟨"f", 2, 1, 3, 1, 2/3⟩, .WARM⟩, 1⟩, true, 1/15, 0, 60⟩ :
        ResultRow).nrf_i = 1 ∧
      (⟨⟨⟨⟨"f", 2, 1, 3, 1, 2/3⟩, .WARM⟩, 1⟩, true, 1/15, 0, 60⟩ :
        ResultRow).erasure_coding = true) :=
  C9_erasure_flag 10 logPair [] (0, 60)
    [⟨⟨⟨⟨"f", 2, 1, 3, 1, 2/3⟩, .WARM⟩, 1⟩, true, 1/15, 0, 60⟩] [("f", 1)]
    (by with_unfolding_all rfl) _ (List.mem_singleton.2 rfl)

/-- C5 (corrected): every HOT or WARM row receives
`nrf_i = max(1, round((crf_i * dnc_i) / DN_count))` and this value
overwrites the file's entry in the replication state — but `round` is the
Python built-in, which rounds half to even, not half up as the claim
states. -/
theorem C5_new_rf_hot_warm (DN_count : ℤ) (df : List AccessEvent)
    (st : RState) (iv : ℤ × ℤ) (res : List ResultRow) (st' : RState)
    (hok : processInterval DN_count df st iv = .ok (res, st'))
    (r : ResultRow) (hr : r ∈ res)
    (hcl : r.classification = .HOT ∨ r.classification = .WARM) :
    r.nrf_i =
      max 1 (roundHalfEven (((r.crf_i * r.dnc_i : ℤ) : ℚ) / (DN_count : ℚ))) ∧
    rfLookup st' r.filename = some r.nrf_i :=
  ⟨(processInterval_rows hok r hr).2.2.1 hcl,
   (processInterval_state hok).1 r hr⟩

/-- Witness for C5 at the single WARM row of `logPair`. -/
theorem C5_new_rf_hot_warm_witness :
    (⟨⟨⟨⟨"f", 2, 1, 3, 1, 2/3⟩, .WARM⟩, 1⟩, true, 1/15, 0, 60⟩ :
        ResultRow).nrf_i =
      max 1 (roundHalfEven
        ((((⟨⟨⟨⟨"f", 2, 1, 3, 1, 2/3⟩, .WARM⟩, 1⟩, true, 1/15, 0, 60⟩ :
            ResultRow).crf_i *
          (⟨⟨⟨⟨"f", 2, 1, 3, 1, 2/3⟩, .WARM⟩, 1⟩, true, 1/15, 0, 60⟩ :
            ResultRow).dnc_i : ℤ) : ℚ) / ((10 : ℤ) : ℚ))) ∧
    rfLookup [("f", 1)]
      (⟨⟨⟨⟨"f", 2, 1, 3, 1, 2/3⟩, .WARM⟩, 1⟩, true, 1/15, 0, 60⟩ :
        ResultRow).filename =
      some (⟨⟨⟨⟨"f", 2, 1, 3, 1, 2/3⟩, .WARM⟩, 1⟩, true, 1/15, 0, 60⟩ :
        ResultRow).nrf_i :=
  C5_new_rf_hot_warm 10 logPair [] (0, 60)
    [⟨⟨⟨⟨"f", 2, 1, 3, 1, 2/3⟩, .WARM⟩, 1⟩, true, 1/15, 0, 60⟩] [("f", 1)]
    (by with_unfolding_all rfl) _ (List.mem_singleton.2 rfl)
    (Or.inr rfl)

/-- Counterexample to C5 as stated: the run on `logTie` hits the exact tie
`(5 * 5) / 10 = 2.5`; the code (Python `round`, half to even) produces
`nrf_i = 2`, while the claim's round-half-up rule `max(1, ⌊2.5 + 1/2⌋)`
gives 3. -/
theorem C5_counterexample :
    (runAlgorithm logTie 10).1.getD 0 [] =
      [⟨⟨⟨⟨"a", 5, 5, 5, 3, 15⟩, .HOT⟩, 2⟩, false, 3/2, 0, 60⟩] ∧
    max 1 (round (((5 * 5 : ℤ) : ℚ) / ((10 : ℤ) : ℚ))) = 3 := by
  constructor
  · with_unfolding_all decide
  · rw [round_eq]
    norm_num

/-- C10 (confirmed): for every classified row of an interval result, if the
replication factor entering the interval is at least 1, the distinct-node
count is between 0 and DN_count, and DN_count ≥ 1, then the new factor
satisfies `1 ≤ nrf_i ≤ crf_i`: hot/warm rows because
`round(crf·dnc/DN) ≤ crf`, cold rows because `nrf_i = 1`. -/
theorem C10_rf_never_increases (DN_count : ℤ) (df : List AccessEvent)
    (st : RState) (iv : ℤ × ℤ) (res : List ResultRow) (st' : RState)
    (hok : processInterval DN_count df st iv = .ok (res, st'))
    (hDN : 1 ≤ DN_count) (r : ResultRow) (hr : r ∈ res)
    (hcrf : 1 ≤ r.crf_i) (hd0 : 0 ≤ r.dnc_i) (hdn : r.dnc_i ≤ DN_count) :
    1 ≤ r.nrf_i ∧ r.nrf_i ≤ r.crf_i := by
  have h := processInterval_rows hok r hr
  cases hc : r.classification with
  | HOT =>
    rw [h.2.2.1 (Or.inl hc)]
    exact ⟨one_le_calcNewRf _ _ _, calcNewRf_le hcrf hdn hDN⟩
  | WARM =>
    rw [h.2.2.1 (Or.inr hc)]
    exact ⟨one_le_calcNewRf _ _ _, calcNewRf_le hcrf hdn hDN⟩
  | COLD =>
    rw [h.2.2.2 hc]
    exact ⟨le_refl 1, hcrf⟩

/-- Witness for C10 at the single WARM row of `logPair`. -/
theorem C10_rf_never_increases_witness :
    1 ≤ (⟨⟨⟨⟨"f", 2, 1, 3, 1, 2/3⟩, .WARM⟩, 1⟩, true, 1/15, 0, 60⟩ :
        ResultRow).nrf_i ∧
    (⟨⟨⟨⟨"f", 2, 1, 3, 1, 2/3⟩, .WARM⟩, 1⟩, true, 1/15, 0, 60⟩ :
        ResultRow).nrf_i ≤
      (⟨⟨⟨⟨"f", 2, 1, 3, 1, 2/3⟩, .WARM⟩, 1⟩, true, 1/15, 0, 60⟩ :
        ResultRow).crf_i :=
  C10_rf_never_increases 10 logPair [] (0, 60)
    [⟨⟨⟨⟨"f", 2, 1, 3, 1, 2/3⟩, .WARM⟩, 1⟩, true, 1/15, 0, 60⟩] [("f", 1)]
    (by with_unfolding_all rfl) (by norm_num) _
    (List.mem_singleton.2 rfl) (by with_unfolding_all decide)
    (by with_unfolding_all decide) (by with_unfolding_all decide)

/-- C4 (corrected): when a window contains zero events, the threshold
computation fails (there is no `EmptyIntervalError` type in the source; a
pandas `KeyError` escapes `calculate_threshold` on the empty metrics
table), and the error is fatal: the interval loop stops there, emitting no
result for that interval and processing no later interval. -/
theorem C4_empty_interval_fatal (DN_count : ℤ) (df : List AccessEvent)
    (st : RState) (iv : ℤ × ℤ) (ivs : List (ℤ × ℤ))
    (h : read_logfile df iv.1 iv.2 = []) :
    processInterval DN_count df st iv = .error .emptyInterval ∧
    runIntervals DN_count df (iv :: ivs) st = ([], some .emptyInterval) := by
  have h1 := processInterval_error_of_empty DN_count df st iv h
  refine ⟨h1, ?_⟩
  simp only [runIntervals, h1]

/-- Witness for C4: the empty middle window `[60, 120)` of
`logEmptyMiddle` aborts the loop. -/
theorem C4_empty_interval_fatal_witness :
    processInterval 10 logEmptyMiddle [("f", 3)] (60, 120) =
      .error .emptyInterval ∧
    runIntervals 10 logEmptyMiddle [(60, 120), (120, 180)] [("f", 3)] =
      ([], some .emptyInterval) :=
  C4_empty_interval_fatal 10 logEmptyMiddle [("f", 3)] (60, 120) [(120, 180)]
    (by with_unfolding_all decide)

/-- Counterexample to C4 as stated: on `logEmptyMiddle` three windows are
derived and the third contains an event, yet the run stops at the empty
second window with an error, producing a result for the first interval
only — it neither records a skipped result nor continues. -/
theorem C4_counterexample :
    (set_time_interval logEmptyMiddle).length = 3 ∧
    read_logfile logEmptyMiddle 120 180 ≠ [] ∧
    (runAlgorithm logEmptyMiddle 10).1.length = 1 ∧
    (runAlgorithm logEmptyMiddle 10).2 = some .emptyInterval := by
  with_unfolding_all decide

theorem runIntervals_complete (DN_count : ℤ) (df : List AccessEvent) :
    ∀ (ivs : List (ℤ × ℤ)) (st : RState),
      (∀ iv ∈ ivs, read_logfile df iv.1 iv.2 ≠ []) →
      (runIntervals DN_count df ivs st).2 = none ∧
      (runIntervals DN_count df ivs st).1.length = ivs.length := by
  intro ivs
  induction ivs with
  | nil => intro st _; exact ⟨rfl, rfl⟩
  | cons iv rest ih =>
    intro st hne
    obtain ⟨p, hp⟩ := processInterval_ok_of_nonempty DN_count df st iv
      (hne iv (List.mem_cons_self _ _))
    have hrec := ih p.2 (fun i hi => hne i (List.mem_cons_of_mem _ hi))
    simp only [runIntervals, hp]
    exact ⟨hrec.1, by simp [hrec.2]⟩

/-- C6 (corrected): no configuration validation exists in the source — no
`InvalidConfigurationError` is raised and `DN_count < 1` is accepted
without any check before interval processing. For a negative `DN_count`
(the integers with `DN_count < 1` and `DN_count ≠ 0`, where the source's
arithmetic stays finite and the embedding is exact) the run proceeds
through every interval (whenever no window is empty) and produces one
result per interval, with the arithmetic simply evaluated at the given
`DN_count`. At `DN_count = 0` the source instead dies mid-interval with an
unhandled arithmetic error — still not a configuration rejection — so
this theorem does not quantify over 0. The interval duration is
hard-coded to 60 minutes and cannot be ≤ 0. -/
theorem C6_no_config_validation (df : List AccessEvent) (DN_count : ℤ)
    (hDN : DN_count < 0)
    (hne : ∀ iv ∈ set_time_interval df, read_logfile df iv.1 iv.2 ≠ []) :
    (runAlgorithm df DN_count).2 = none ∧
    (runAlgorithm df DN_count).1.length = (set_time_interval df).length :=
  runIntervals_complete DN_count df (set_time_interval df) [] hne

/-- Witness for C6: the run on `logPair` with the invalid `DN_count = -1`
completes normally. -/
theorem C6_no_config_validation_witness :
    (runAlgorithm logPair (-1)).2 = none ∧
    (runAlgorithm logPair (-1)).1.length =
      (set_time_interval logPair).length :=
  C6_no_config_validation logPair (-1) (by norm_num)
    (by with_unfolding_all decide)

/-- Counterexample to C6 as stated: with `DN_count = -1` (< 1) the engine
is not stopped by any configuration check — it runs to completion with no
error and produces a non-empty interval result. -/
theorem C6_counterexample :
    (runAlgorithm logPair (-1)).2 = none ∧
    (runAlgorithm logPair (-1)).1.length = 1 ∧
    (runAlgorithm logPair (-1)).1.getD 0 [] ≠ [] := by
  with_unfolding_all decide

end Replica

namespace Replica

/-! ### The cross-interval recurrence -/

theorem state_invariant_step {DN_count : ℤ} {df : List AccessEvent}
    {st : RState} {iv : ℤ × ℤ} {res : List ResultRow} {st' : RState}
    (hok : processInterval DN_count df st iv = .ok (res, st'))
    (hist : List (List ResultRow))
    (hinv : ∀ f : String, rfLookup st f = hist.reverse.findSome?
      (fun rs => (rs.find? (fun row => row.filename = f)).map (·.nrf_i))) :
    ∀ f : String, rfLookup st' f = (hist ++ [res]).reverse.findSome?
      (fun rs => (rs.find? (fun row => row.filename = f)).map (·.nrf_i)) := by
  intro f
  rw [List.reverse_append]
  cases hfind : res.find? (fun row => row.filename = f) with
  | some row =>
    have hrow_mem := List.mem_of_find?_eq_some hfind
    have hrow_f : row.filename = f := by
      have := List.find?_some hfind
      simpa using this
    have hlook := (processInterval_state hok).1 row hrow_mem
    rw [hrow_f] at hlook
    rw [hlook]
    simp [List.findSome?_cons, hfind]
  | none =>
    have hne : ∀ r ∈ res, r.filename ≠ f := by
      intro r hr
      have := List.find?_eq_none.1 hfind r hr
      simpa using this
    rw [(processInterval_state hok).2 f hne, hinv f]
    simp [List.findSome?_cons, hfind]

theorem runIntervals_crf (DN_count : ℤ) (df : List AccessEvent) :
    ∀ (ivs : List (ℤ × ℤ)) (st : RState) (hist : List (List ResultRow)),
      (∀ f : String, rfLookup st f = hist.reverse.findSome?
        (fun rs => (rs.find? (fun row => row.filename = f)).map (·.nrf_i))) →
      ∀ (k : ℕ), k < (runIntervals DN_count df ivs st).1.length →
      ∀ (f : String) (r : ResultRow),
        ((runIntervals DN_count df ivs st).1.getD k []).find?
          (fun row => row.filename = f) = some r →
        r.crf_i =
          ((hist ++
            (runIntervals DN_count df ivs st).1.take k).reverse.findSome?
            (fun rs => (rs.find? (fun row => row.filename = f)).map
              (·.nrf_i))).getD
            (firstCrf ((read_logfile df (ivs.getD k (0, 0)).1
              (ivs.getD k (0, 0)).2).filter (fun e => e.filename = f))) := by
  intro ivs
  induction ivs with
  | nil =>
    intro st hist hinv k hk
    simp [runIntervals] at hk
  | cons iv rest ih =>
    intro st hist hinv k hk f r hfind
    cases hpi : processInterval DN_count df st iv with
    | error e =>
      rw [show runIntervals DN_count df (iv :: rest) st = ([], some e) from by
        simp [runIntervals, hpi]] at hk
      simp at hk
    | ok p =>
      obtain ⟨res, st'⟩ := p
      have hrun : runIntervals DN_count df (iv :: rest) st =
          (res :: (runIntervals DN_count df rest st').1,
           (runIntervals DN_count df rest st').2) := by
        simp [runIntervals, hpi]
      rw [hrun] at hk hfind ⊢
      cases k with
      | zero =>
        simp only [List.getD_cons_zero] at hfind
        have hmem := List.mem_of_find?_eq_some hfind
        have hrf : r.filename = f := by
          have := List.find?_some hfind
          simpa using this
        have hcrf := processInterval_crf hpi r hmem
        rw [hrf] at hcrf
        rw [hcrf, hinv f]
        simp only [List.take_zero, List.append_nil, List.getD_cons_zero]
      | succ k =>
        simp only [List.getD_cons_succ] at hfind ⊢
        have hstep := state_invariant_step hpi hist hinv
        have hrec := ih st' (hist ++ [res]) hstep k
          (by simpa using hk) f r hfind
        rw [← List.append_cons, ← List.take_succ_cons] at hrec
        exact hrec

/-- C1 (confirmed): for every filename and every produced interval result
k, the `crf_i` carried by that file's row at interval k equals the
`nrf_i` its row received in the most recent earlier interval that has a
row for it, and equals the `current_replication_factor` of the file's
first in-window log row when no earlier interval has one; and the
replication-state entries of files absent from an interval are left
unchanged by that interval. -/
theorem C1_replication_recurrence (df : List AccessEvent) (DN_count : ℤ) :
    (∀ (k : ℕ), k < (runAlgorithm df DN_count).1.length →
      ∀ (f : String) (r : ResultRow),
        ((runAlgorithm df DN_count).1.getD k []).find?
          (fun row => row.filename = f) = some r →
        r.crf_i =
          ((((runAlgorithm df DN_count).1.take k).reverse.findSome?
            (fun rs => (rs.find? (fun row => row.filename = f)).map
              (·.nrf_i))).getD
            (firstCrf ((read_logfile df
              ((set_time_interval df).getD k (0, 0)).1
              ((set_time_interval df).getD k (0, 0)).2).filter
              (fun e => e.filename = f))))) ∧
    (∀ (st : RState) (iv : ℤ × ℤ) (res : List ResultRow) (st' : RState),
      processInterval DN_count df st iv = .ok (res, st') →
      ∀ f : String, (∀ row ∈ res, row.filename ≠ f) →
        rfLookup st' f = rfLookup st f) := by
  constructor
  · intro k hk f r hfind
    have hmain := runIntervals_crf DN_count df (set_time_interval df) [] []
      (fun f => rfl) k hk f r hfind
    simpa using hmain
  · intro st iv res st' hok f hf
    exact (processInterval_state hok).2 f hf

/-- Witness for C1: on `logTwoIntervals` the file `f` appears in windows
`[0,60)` and `[60,120)`; at interval index 1 its `crf_i` is 1, the `nrf_i`
produced at interval index 0. -/
theorem C1_replication_recurrence_witness :
    (⟨⟨⟨⟨"f", 1, 1, 1, 1, 1⟩, .WARM⟩, 1⟩, true, 1/10, 60, 120⟩ :
        ResultRow).crf_i =
      ((((runAlgorithm logTwoIntervals 10).1.take 1).reverse.findSome?
        (fun rs => (rs.find? (fun row => row.filename = "f")).map
          (·.nrf_i))).getD
        (firstCrf ((read_logfile logTwoIntervals
          ((set_time_interval logTwoIntervals).getD 1 (0, 0)).1
          ((set_time_interval logTwoIntervals).getD 1 (0, 0)).2).filter
          (fun e => e.filename = "f")))) :=
  (C1_replication_recurrence logTwoIntervals 10).1 1
    (by with_unfolding_all decide) "f"
    ⟨⟨⟨⟨"f", 1, 1, 1, 1, 1⟩, .WARM⟩, 1⟩, true, 1/10, 60, 120⟩
    (by with_unfolding_all decide)

end Replica
